import Mathlib

/-!
Verification development for the lnurl-nfc core: a shallow embedding of the
identifier decoder (`decodeLnurl` with its bech32 pipeline), the reader
dispatch routine (`onReading`), the `listenOnce` session wrapper, and the
two-round withdraw client (`handleLNURL` / `handlePayment`), together with
theorems settling the specification claims.

Strings are modelled by Lean `String` (a list of characters); the ASCII
case mapping of `Char.toLower` / `Char.toUpper` models the JavaScript
case conversions on the ASCII range, which is the range all scheme
tokens and the bech32 alphabet live in.
-/

namespace LnurlNfc

/-- Index of the first occurrence of a character, `none` when absent
(models JavaScript `indexOf` returning `-1`). -/
def idxOfChar (c : Char) : List Char → Option Nat
  | [] => none
  | x :: xs => if x = c then some 0 else (idxOfChar c xs).map (· + 1)

/-- Index of the last occurrence of a character, `none` when absent
(models JavaScript `lastIndexOf` returning `-1`). -/
def lastIdxOfChar (c : Char) (l : List Char) : Option Nat :=
  (idxOfChar c l.reverse).map (fun j => l.length - 1 - j)

/-- Whether `pat` occurs as a contiguous run anywhere in `l`
(models JavaScript `indexOf(pat) >= 0` for string patterns). -/
def occursIn (pat : List Char) : List Char → Bool
  | [] => pat.isPrefixOf ([] : List Char)
  | c :: rest => pat.isPrefixOf (c :: rest) || occursIn pat rest

/-- Delete the first occurrence of `pat` from `l`; `l` unchanged when `pat`
does not occur (models JavaScript `replace(pat, '')` for string patterns). -/
def replaceFirst (pat : List Char) : List Char → List Char
  | [] => []
  | c :: rest =>
    if pat.isPrefixOf (c :: rest) then (c :: rest).drop pat.length
    else c :: replaceFirst pat rest

/-- ASCII lower-casing of a character list (models `toLowerCase`). -/
def lowerL (l : List Char) : List Char := l.map Char.toLower

/-- ASCII upper-casing of a character list (models `toUpperCase`). -/
def upperL (l : List Char) : List Char := l.map Char.toUpper

/-- ASCII lower-casing on strings. -/
def lowerS (s : String) : String := (lowerL s.toList).asString

/-- ASCII upper-casing on strings. -/
def upperS (s : String) : String := (upperL s.toList).asString

/-- Whether `s` begins with `pat` (models `String.startsWith`). -/
def startsWithS (s pat : String) : Bool := pat.toList.isPrefixOf s.toList

/-- The substring from character index `n` on (models `String.slice(n)`). -/
def sliceFrom (s : String) (n : Nat) : String := (s.toList.drop n).asString

/-- Error taxonomy of the reading path, from `ErrorReason` in the source. -/
inductive ErrorReason where
  | unavailable
  | aborted
  | scanInProgress
  | permissionDenied
  | readingError
  | noLnurlFound
deriving DecidableEq, Repr

/-- Result of classifying a candidate string, from `LnurlResult` in the
source together with the `lnurl` payload that accompanies `Yes` / `Maybe`. -/
inductive DecodeResult where
  | no
  | maybe (lnurl : String)
  | yes (lnurl : String)
deriving DecidableEq, Repr

/-- Models `_isOnion` from the source: the lower-cased string ends with `.onion`,
or contains `.onion/` or `.onion?` somewhere. -/
def isOnion (s : String) : Bool :=
  if s = "" then false
  else
    let lc := lowerL s.toList
    ".onion".toList.isSuffixOf lc
      || occursIn ".onion/".toList lc
      || occursIn ".onion?".toList lc

/-- Models `isValidLnurl` from the source: the decoded text is accepted when it
starts with `https://`, or starts with `http://` and is onion-recognized. -/
def isValidLnurl (lnurl : String) : Bool :=
  if lnurl = "" then false
  else if startsWithS lnurl "https://" then true
  else if startsWithS lnurl "http://" && isOnion lnurl then true
  else false

/-- The bech32 data alphabet of the `bech32` dependency. -/
def bech32Alphabet : List Char := "qpzry9x8gf2tvdw0s3jn54khce6mua7l".toList

/-- Map a data character to its 5-bit value via the alphabet. -/
def charToWord (c : Char) : Option Nat := idxOfChar c bech32Alphabet

/-- One step of the bech32 checksum polynomial, on 30-bit values
(`polymodStep` of the `bech32` dependency). -/
def polymodStep (pre : Nat) : Nat :=
  let b := pre >>> 25
  ((pre &&& 0x1ffffff) <<< 5)
    ^^^ (if b &&& 1 ≠ 0 then 0x3b6a57b2 else 0)
    ^^^ (if (b >>> 1) &&& 1 ≠ 0 then 0x26508e6d else 0)
    ^^^ (if (b >>> 2) &&& 1 ≠ 0 then 0x1ea119fa else 0)
    ^^^ (if (b >>> 3) &&& 1 ≠ 0 then 0x3d4233dd else 0)
    ^^^ (if (b >>> 4) &&& 1 ≠ 0 then 0x2a1462b3 else 0)

/-- Checksum state after absorbing the human-readable part; fails on a
character outside the printable ASCII range (`prefixChk` of the `bech32`
dependency). -/
def hrpChk (hrp : List Char) : Option Nat :=
  if hrp.any (fun c => c.toNat < 33 || 126 < c.toNat) then none
  else
    let chk1 := hrp.foldl (fun chk c => polymodStep chk ^^^ (c.toNat >>> 5)) 1
    let chk2 := polymodStep chk1
    some (hrp.foldl (fun chk c => polymodStep chk ^^^ (c.toNat &&& 0x1f)) chk2)

/-- Models `bech32.decode(str, limit)` of the `bech32` dependency: length window,
single-case requirement, split at the last `1`, data-charset mapping and
checksum verification; yields the human-readable part and the data words
with the six checksum words removed. -/
def bech32DecodeRaw (str : List Char) (limit : Nat) : Option (List Char × List Nat) :=
  if str.length < 8 then none
  else if limit < str.length then none
  else if str ≠ lowerL str ∧ str ≠ upperL str then none
  else
    let s := lowerL str
    match lastIdxOfChar '1' s with
    | none => none
    | some 0 => none
    | some split =>
      let hrp := s.take split
      let wordChars := s.drop (split + 1)
      if wordChars.length < 6 then none
      else
        match hrpChk hrp with
        | none => none
        | some chk0 =>
          match wordChars.mapM charToWord with
          | none => none
          | some vals =>
            let chk := vals.foldl (fun a v => polymodStep a ^^^ v) chk0
            if chk = 1 then some (hrp, vals.take (vals.length - 6)) else none

/-- Regroup 5-bit words into bytes without padding; fails on excess or
non-zero padding (`fromWords` of the `bech32` dependency). Arithmetic is
masked to 32 bits exactly as the JavaScript bitwise operators do. -/
def fromWordsGo : List Nat → Nat → Nat → List Nat → Option (List Nat)
  | [], value, bits, acc =>
    if 5 ≤ bits then none
    else if (value <<< (8 - bits)) &&& 255 ≠ 0 then none
    else some acc.reverse
  | w :: rest, value, bits, acc =>
    let value := ((value <<< 5) ||| w) &&& 0xffffffff
    let bits := bits + 5
    if 8 ≤ bits then
      fromWordsGo rest value (bits - 8) (((value >>> (bits - 8)) &&& 255) :: acc)
    else
      fromWordsGo rest value bits acc

/-- Models `bech32.fromWords` of the `bech32` dependency. -/
def fromWords (words : List Nat) : Option (List Nat) := fromWordsGo words 0 0 []

/-- Strict UTF-8 decoding of a byte list into code points, rejecting
truncated sequences, overlong forms, surrogates and values above
`0x10FFFF` (models `TextDecoder('utf-8', fatal)` on a byte payload). -/
def utf8DecodeGo : List Nat → Option (List Nat)
  | [] => some []
  | b :: rest =>
    if b < 0x80 then (utf8DecodeGo rest).map (b :: ·)
    else if 0xC2 ≤ b ∧ b ≤ 0xDF then
      match rest with
      | b2 :: r =>
        if 0x80 ≤ b2 ∧ b2 ≤ 0xBF then
          (utf8DecodeGo r).map (((b - 0xC0) <<< 6 ||| (b2 - 0x80)) :: ·)
        else none
      | _ => none
    else if 0xE0 ≤ b ∧ b ≤ 0xEF then
      match rest with
      | b2 :: b3 :: r =>
        let lo2 := if b = 0xE0 then 0xA0 else 0x80
        let hi2 := if b = 0xED then 0x9F else 0xBF
        if lo2 ≤ b2 ∧ b2 ≤ hi2 ∧ 0x80 ≤ b3 ∧ b3 ≤ 0xBF then
          (utf8DecodeGo r).map
            (((b - 0xE0) <<< 12 ||| (b2 - 0x80) <<< 6 ||| (b3 - 0x80)) :: ·)
        else none
      | _ => none
    else if 0xF0 ≤ b ∧ b ≤ 0xF4 then
      match rest with
      | b2 :: b3 :: b4 :: r =>
        let lo2 := if b = 0xF0 then 0x90 else 0x80
        let hi2 := if b = 0xF4 then 0x8F else 0xBF
        if lo2 ≤ b2 ∧ b2 ≤ hi2 ∧ 0x80 ≤ b3 ∧ b3 ≤ 0xBF ∧ 0x80 ≤ b4 ∧ b4 ≤ 0xBF then
          (utf8DecodeGo r).map
            (((b - 0xF0) <<< 18 ||| (b2 - 0x80) <<< 12
              ||| (b3 - 0x80) <<< 6 ||| (b4 - 0x80)) :: ·)
        else none
      | _ => none
    else none

/-- UTF-8 decode to a string, stripping a leading byte-order mark as the
platform text decoder does by default. -/
def utf8DecodeStr (bs : List Nat) : Option String :=
  (utf8DecodeGo bs).map (fun cps =>
    let cps := match cps with
      | c :: r => if c = 0xFEFF then r else c :: r
      | [] => []
    (cps.map Char.ofNat).asString)

/-- Models `bech32Decode` from the source: bech32-decode with limit 2000,
regroup the words into bytes, and decode those bytes as strict UTF-8.
The human-readable part is not inspected, exactly as in the source. -/
def bech32DecodeOpt (data : String) : Option String :=
  match bech32DecodeRaw data.toList 2000 with
  | none => none
  | some (_, words) =>
    match fromWords words with
    | none => none
    | some bytes => utf8DecodeStr bytes

/-- Models `decodeLnurl` from the source. The input is `none` for the `null`,
`undefined` and non-string inputs, all of which the source turns into the
`No` result (the falsy guard and the surrounding `try` / `catch`);
a bech32 or text-decoding failure inside the `try` is `none` from
`bech32DecodeOpt` and likewise produces the `No` result. -/
def decodeLnurl (input : Option String) : DecodeResult :=
  match input with
  | none => .no
  | some s =>
    if s = "" then .no
    else if startsWithS (lowerS s) "lightning:" then
      match bech32DecodeOpt (sliceFrom s 10) with
      | none => .no
      | some r => if isValidLnurl r then .yes r else .no
    else if startsWithS (lowerS s) "lnurlw://" then
      .yes ((if isOnion s then "http://" else "https://") ++ sliceFrom s 9)
    else if startsWithS (lowerS s) "lnurl"
        && idxOfChar ':' (lowerS s).toList = none then
      match bech32DecodeOpt s with
      | none => .no
      | some r => if isValidLnurl r then .yes r else .no
    else if startsWithS (lowerS s) "https://" then .maybe s
    else if startsWithS (lowerS s) "http://" then
      if isOnion s then .maybe s else .no
    else .no

/-- Drain full 5-bit groups out of the bit accumulator
(the inner `while` of the byte-to-word regrouping). -/
def drainWords (value : Nat) : Nat → List Nat → Nat × List Nat
  | 0, acc => (0, acc)
  | 1, acc => (1, acc)
  | 2, acc => (2, acc)
  | 3, acc => (3, acc)
  | 4, acc => (4, acc)
  | n + 5, acc => drainWords value n (((value >>> n) &&& 31) :: acc)

/-- Regroup bytes into 5-bit words with zero padding
(`bech32.toWords` of the `bech32` dependency). -/
def toWordsGo : List Nat → Nat → Nat → List Nat → List Nat
  | [], value, bits, acc =>
    (if 0 < bits then ((value <<< (5 - bits)) &&& 31) :: acc else acc).reverse
  | b :: rest, value, bits, acc =>
    let value := ((value <<< 8) ||| b) &&& 0xffffffff
    let r := drainWords value (bits + 8) acc
    toWordsGo rest value r.1 r.2

/-- Models `bech32.toWords` of the `bech32` dependency. -/
def toWords (bytes : List Nat) : List Nat := toWordsGo bytes 0 0 []

/-- The data character for a 5-bit word. -/
def wordToChar (w : Nat) : Char := bech32Alphabet.getD w 'q'

/-- Models `bech32.encode(hrp, words, 2000)` of the `bech32` dependency:
human-readable part, separator `1`, data characters and the six checksum
characters. -/
def bech32Encode (hrp : List Char) (words : List Nat) : Option (List Char) :=
  if 2000 < hrp.length + 7 + words.length then none
  else
    let hrp := lowerL hrp
    match hrpChk hrp with
    | none => none
    | some chk0 =>
      if words.any (fun w => 32 ≤ w) then none
      else
        let chk1 := words.foldl (fun a w => polymodStep a ^^^ w) chk0
        let chk2 := polymodStep (polymodStep (polymodStep
          (polymodStep (polymodStep (polymodStep chk1))))) ^^^ 1
        let checksum := (List.range 6).map
          (fun i => wordToChar ((chk2 >>> ((5 - i) * 5)) &&& 31))
        some (hrp ++ '1' :: words.map wordToChar ++ checksum)

/-- The UTF-8 bytes of an ASCII string (each character below `0x80`
encodes as its own code point). Used on concrete ASCII endpoints. -/
def asciiBytes (s : String) : List Nat := s.toList.map Char.toNat

/-- Modelled from the spec: bech32-encode an endpoint's UTF-8 bytes under
the `lnurl` human-readable part, producing the `lnurl1...` identifier that
the round-trip property feeds back into `decodeLnurl`. -/
def lnurlEncode (endpoint : String) : Option String :=
  (bech32Encode "lnurl".toList (toWords (asciiBytes endpoint))).map List.asString

/-- One hardware record as seen by the dispatch routine: absent data
(the record is skipped), data whose declared text encoding fails to decode
(the record classifies as `No`), or successfully decoded text. -/
inductive RecordM where
  | noData
  | badText
  | text (s : String)
deriving DecidableEq, Repr

/-- Models `_decodeLnurlRecord` from the source, after text decoding:
a record without data or with undecodable data is `No`, otherwise the
decoded text is classified by `decodeLnurl`. -/
def decodeLnurlRecord (r : RecordM) : DecodeResult :=
  match r with
  | .noData => .no
  | .badText => .no
  | .text s => decodeLnurl (some s)

/-- Result of one read-event dispatch: an lnurl delivered through
`onLnurlRead`, or an error delivered through `onReadingError`. -/
inductive ReadDispatch where
  | lnurlRead (lnurl : String)
  | error (e : ErrorReason)
deriving DecidableEq, Repr

/-- The record loop of `_onReading` from the source: skip records without
data, short-circuit on the first `Yes`, push `Maybe` values onto the
alternatives list, and fall back to the first alternative or the
`noLnurlFound` error. -/
def onReadingLoop : List RecordM → List String → ReadDispatch
  | [], alts =>
    match alts with
    | a :: _ => .lnurlRead a
    | [] => .error .noLnurlFound
  | r :: rest, alts =>
    match r with
    | .noData => onReadingLoop rest alts
    | .badText => onReadingLoop rest alts
    | .text s =>
      match decodeLnurl (some s) with
      | .yes v => .lnurlRead v
      | .maybe v => onReadingLoop rest (alts ++ [v])
      | .no => onReadingLoop rest alts

/-- Models `_onReading` from the source: a structurally invalid event (missing
event, message or record array) is `none` and dispatches `readingError`;
otherwise the record loop runs with an empty alternatives list. -/
def onReading (event : Option (List RecordM)) : ReadDispatch :=
  match event with
  | none => .error .readingError
  | some records => onReadingLoop records []

/-- A value held in a callback field of the reader: unset, a caller's
callback (identified by a number), or one of the two temporary closures
that `listenOnce` installs. -/
inductive CbState where
  | unset
  | user (n : Nat)
  | onceRead
  | onceErr
deriving DecidableEq, Repr

/-- The mutable state of an `LnurlReader` that `listenOnce` touches:
the two callback fields and the listening flag. -/
structure ReaderSt where
  onLnurlRead : CbState
  onReadingError : CbState
  listening : Bool
deriving DecidableEq, Repr

/-- The payload `listenOnce` rejects with: a mapped `ErrorReason` or an
unclassified fault surfaced verbatim. -/
inductive RejectVal where
  | reason (e : ErrorReason)
  | other (n : Nat)
deriving DecidableEq, Repr

/-- How `startListening` settles when `listenOnce` has to start the scan. -/
inductive StartRes where
  | ok
  | err (v : RejectVal)
deriving DecidableEq, Repr

/-- The first session event after the callbacks are installed: a decoded
tag, a reading error, or an abort of the supplied cancellation signal. -/
inductive SessionEvent where
  | readTag (lnurl : String)
  | readErr (e : ErrorReason)
  | aborted
deriving DecidableEq, Repr

/-- How the `listenOnce` promise settles. -/
inductive SettleRes where
  | resolved (lnurl : String)
  | rejected (v : RejectVal)
deriving DecidableEq, Repr

/-- The `done` helper of `listenOnce` from the source: stop listening when
the session was not listening before the call, and restore the two saved
callback fields. -/
def listenOnceDone (saved : ReaderSt) (wasListening : Bool) (st : ReaderSt) : ReaderSt :=
  let st := if wasListening then st else { st with listening := false }
  { st with onLnurlRead := saved.onLnurlRead, onReadingError := saved.onReadingError }

/-- Models `listenOnce` from the source as a state transformer: save the callback
fields and the listening flag, install the temporary closures, start the
scan when not already listening (rejecting on a start failure without
running `done`), then settle on the first session event, running `done`
before resolving or rejecting. -/
def listenOnce (st : ReaderSt) (start : StartRes) (ev : SessionEvent) :
    ReaderSt × SettleRes :=
  let saved := st
  let wasListening := st.listening
  let st1 := { st with onLnurlRead := .onceRead, onReadingError := .onceErr }
  let settle := fun (st2 : ReaderSt) =>
    match ev with
    | .readTag lnurl => (listenOnceDone saved wasListening st2, .resolved lnurl)
    | .readErr e => (listenOnceDone saved wasListening st2, .rejected (.reason e))
    | .aborted => (listenOnceDone saved wasListening st2, .rejected (.reason .aborted))
  if wasListening then settle st1
  else
    match start with
    | .err v => (st1, .rejected v)
    | .ok => settle { st1 with listening := true }

/-- A request issued through the network transport. Modelled from the
spec: the implementation of the relay-capable withdraw client is not in
the source tree (only its tests are), so requests follow the canonical
external interface of §6 — a direct `GET` of the target URL when no relay
is configured, and a `POST` to the relay whose JSON body carries the
target URL when one is. -/
inductive NetRequest where
  | direct (url : String)
  | relay (relayUrl : String) (target : String)
deriving DecidableEq, Repr

/-- A JSON value in a response field: a string, or some non-string value. -/
inductive JVal where
  | jstr (s : String)
  | jnonstr
deriving DecidableEq, Repr

/-- The JSON fields the withdraw rounds inspect. `none` models an absent
field; `reason` is carried as an optional string because it is only ever
copied into the outcome message. -/
structure JsonResp where
  status : Option JVal
  callback : Option JVal
  k1 : Option JVal
  reason : Option String
deriving DecidableEq, Repr

/-- How one transport round settles: a local failure (transport rejection
or JSON-parse rejection, carrying the local exception's description) or a
parsed JSON response. -/
inductive NetResult where
  | fail (msg : String)
  | ok (resp : JsonResp)
deriving DecidableEq, Repr

/-- Modelled from the spec: the outcome value of a withdraw attempt,
`success` with a `message` that is either remote (`isRemoteMessage`) and
possibly absent, or a local description. -/
structure WithdrawOutcome where
  success : Bool
  isRemoteMessage : Bool
  message : Option String
deriving DecidableEq, Repr

/-- Modelled from the spec: build the request for a target URL — direct
`GET` without a relay, relay `POST` carrying the target otherwise. -/
def mkRequest (relay : Option String) (target : String) : NetRequest :=
  match relay with
  | none => .direct target
  | some p => .relay p target

/-- The `lightning:` pattern of the round-2 instrument normalization. -/
def lightningPat : List Char := "lightning:".toList

/-- The round-2 payment-submission URL from `handlePayment` in the source:
append `k1=<k1>` and `pr=<invoice with the first occurrence of
`lightning:` removed>`, separated by `&` when the callback already
contains a `?` and by `?` otherwise. -/
def paymentRequestUrl (callback k1 invoice : String) : String :=
  let separator := if idxOfChar '?' callback.toList = none then "?" else "&"
  callback ++ separator ++ "k1=" ++ k1 ++ "&pr="
    ++ (replaceFirst lightningPat invoice.toList).asString

/-- Round 2 of the withdraw protocol (`handlePayment`). Modelled from the
spec for the transport and outcome shape (the relay-capable, discriminated
variant is absent from the source tree); the submission URL construction
is the one in the source. Returns the outcome together with the requests
issued, in order. `net` is the network transport. -/
def handlePayment (callback k1 invoice : String) (relay : Option String)
    (net : NetRequest → NetResult) : WithdrawOutcome × List NetRequest :=
  let req := mkRequest relay (paymentRequestUrl callback k1 invoice)
  match net req with
  | .fail m => (⟨false, false, some m⟩, [req])
  | .ok r =>
    if r.status = some (.jstr "OK") then
      (⟨true, false, some "invoice payment initiated"⟩, [req])
    else if r.status = some (.jstr "ERROR") then
      (⟨false, true, r.reason⟩, [req])
    else
      (⟨false, false, some "invalid response"⟩, [req])

/-- The full withdraw operation (`handleLNURL`). Modelled from the spec
(§4.3): request the endpoint, treat a remote `status: "ERROR"` as a remote
message, require non-empty string `callback` and `k1` fields, and hand
over to round 2; any local transport or parse failure becomes a local
outcome. Returns the outcome together with the requests issued, in
order. -/
def handleLNURL (lnurl invoice : String) (relay : Option String)
    (net : NetRequest → NetResult) : WithdrawOutcome × List NetRequest :=
  let req := mkRequest relay lnurl
  match net req with
  | .fail m => (⟨false, false, some m⟩, [req])
  | .ok r =>
    if r.status = some (.jstr "ERROR") then
      (⟨false, true, r.reason⟩, [req])
    else
      match r.callback, r.k1 with
      | some (.jstr cb), some (.jstr k1v) =>
        if cb ≠ "" ∧ k1v ≠ "" then
          let next := handlePayment cb k1v invoice relay net
          (next.1, req :: next.2)
        else (⟨false, false, some "invalid response"⟩, [req])
      | _, _ => (⟨false, false, some "invalid response"⟩, [req])

/-- The remainder of `l` after the first occurrence of `pat`, `none` when
`pat` does not occur. -/
def dropThrough (pat : List Char) : List Char → Option (List Char)
  | [] => if pat.isPrefixOf ([] : List Char) then some [] else none
  | c :: rest =>
    if pat.isPrefixOf (c :: rest) then some ((c :: rest).drop pat.length)
    else dropThrough pat rest

/-- The host component of a URL-like string: what follows the first `://`
(or the whole string when there is none) up to the first `/`, `?` or `#`.
Formalises the claim's words; the source never extracts a host. -/
def hostOf (s : String) : String :=
  let cs := s.toList
  let afterScheme :=
    match dropThrough "://".toList cs with
    | some r => r
    | none => cs
  (afterScheme.takeWhile (fun c => c ≠ '/' ∧ c ≠ '?' ∧ c ≠ '#')).asString

/-- Onion recognition as the claim words it: the host component ends with
`.onion` case-insensitively, or `.onion/` / `.onion?` occurs later in the
string. Stated from the claim, to be compared with `isOnion` from the
source. -/
def claimOnion (s : String) : Bool :=
  ".onion".toList.isSuffixOf (lowerL (hostOf s).toList)
    || occursIn ".onion/".toList (lowerL s.toList)
    || occursIn ".onion?".toList (lowerL s.toList)

/-! ## General lemmas about the string helpers -/

theorem toList_append (s t : String) : (s ++ t).toList = s.toList ++ t.toList := rfl

theorem occursIn_iff (pat l : List Char) :
    occursIn pat l = true ↔ ∃ a b, l = a ++ pat ++ b := by
  induction l with
  | nil =>
    simp only [occursIn, List.isPrefixOf_iff_prefix, List.prefix_nil]
    constructor
    · rintro rfl
      exact ⟨[], [], rfl⟩
    · rintro ⟨a, b, h⟩
      have hl := congrArg List.length h
      simp only [List.length_nil, List.length_append] at hl
      exact List.length_eq_zero.mp (by omega)
  | cons c rest ih =>
    simp only [occursIn, Bool.or_eq_true, ih, List.isPrefixOf_iff_prefix]
    constructor
    · rintro (⟨t, ht⟩ | ⟨a, b, rfl⟩)
      · exact ⟨[], t, by simp [← ht]⟩
      · exact ⟨c :: a, b, rfl⟩
    · rintro ⟨a, b, h⟩
      cases a with
      | nil => exact Or.inl ⟨b, by simpa using h.symm⟩
      | cons x a2 =>
        right
        injection h with h1 h2
        exact ⟨a2, b, h2⟩

theorem idxOfChar_eq_none_iff (c : Char) (l : List Char) :
    idxOfChar c l = none ↔ c ∉ l := by
  induction l with
  | nil => simp [idxOfChar]
  | cons x xs ih =>
    by_cases hx : x = c
    · simp [idxOfChar, hx]
    · simp only [idxOfChar, if_neg hx, Option.map_eq_none', ih, List.mem_cons]
      constructor
      · intro h hc
        rcases hc with hc | hc
        · exact hx hc.symm
        · exact h hc
      · intro h hc
        exact h (Or.inr hc)

theorem startsWithS_append (p r : String) : startsWithS (p ++ r) p = true := by
  simp [startsWithS, List.isPrefixOf_iff_prefix, toList_append]

theorem isValidLnurl_starts (v : String) (h : isValidLnurl v = true) :
    startsWithS v "http://" = true ∨ startsWithS v "https://" = true := by
  unfold isValidLnurl at h
  split_ifs at h with h1 h2 h3 <;> simp_all [Bool.and_eq_true]

/-! ## Claim theorems -/

/-- C6 counterexample: the source's onion recognition accepts a URL whose
host is not an onion host, merely because the path ends with `.onion`;
the claim's host-based recognition rejects it. -/
theorem claim6_counterexample :
    isOnion "https://example.com/file.onion" = true
  ∧ claimOnion "https://example.com/file.onion" = false := by decide

/-- C6 amended: onion recognition returns true iff, case-insensitively,
some occurrence of `.onion` in the string is either at the very end of the
string or immediately followed by `/` or `?` — the whole string is
examined, not the host component. -/
theorem claim6_amended (s : String) :
    isOnion s = true ↔
      ∃ a b, lowerL s.toList = a ++ ".onion".toList ++ b ∧
        (b = [] ∨ b.head? = some '/' ∨ b.head? = some '?') := by
  by_cases hs : s = ""
  · subst hs
    constructor
    · intro h
      exact absurd h (by decide)
    · rintro ⟨a, b, h, _⟩
      have h2 : ([] : List Char) = a ++ ".onion".toList ++ b := h
      obtain ⟨h3, hb⟩ := List.append_eq_nil.mp h2.symm
      obtain ⟨ha, ho⟩ := List.append_eq_nil.mp h3
      exact absurd ho (by decide)
  · have hOn : isOnion s = (".onion".toList.isSuffixOf (lowerL s.toList)
        || occursIn ".onion/".toList (lowerL s.toList)
        || occursIn ".onion?".toList (lowerL s.toList)) := by
      unfold isOnion
      rw [if_neg hs]
    rw [hOn, Bool.or_eq_true, Bool.or_eq_true, occursIn_iff, occursIn_iff,
      List.isSuffixOf_iff_suffix]
    constructor
    · rintro ((hsuf | ⟨a, b, h⟩) | ⟨a, b, h⟩)
      · obtain ⟨t, ht⟩ := hsuf
        refine ⟨t, [], ?_, Or.inl rfl⟩
        rw [List.append_nil]
        exact ht.symm
      · refine ⟨a, '/' :: b, ?_, Or.inr (Or.inl rfl)⟩
        rw [h, show ".onion/".toList = ".onion".toList ++ ['/'] from rfl]
        simp [List.append_assoc]
      · refine ⟨a, '?' :: b, ?_, Or.inr (Or.inr rfl)⟩
        rw [h, show ".onion?".toList = ".onion".toList ++ ['?'] from rfl]
        simp [List.append_assoc]
    · rintro ⟨a, b, h, (rfl | hb | hb)⟩
      · refine Or.inl (Or.inl ⟨a, ?_⟩)
        rw [List.append_nil] at h
        exact h.symm
      · rcases b with _ | ⟨x, b2⟩
        · simp at hb
        · simp only [List.head?_cons, Option.some.injEq] at hb
          subst hb
          refine Or.inl (Or.inr ⟨a, b2, ?_⟩)
          rw [h, show ".onion/".toList = ".onion".toList ++ ['/'] from rfl]
          simp [List.append_assoc]
      · rcases b with _ | ⟨x, b2⟩
        · simp at hb
        · simp only [List.head?_cons, Option.some.injEq] at hb
          subst hb
          refine Or.inr ⟨a, b2, ?_⟩
          rw [h, show ".onion?".toList = ".onion".toList ++ ['?'] from rfl]
          simp [List.append_assoc]

/-- C5: whenever `decodeLnurl` returns the Confirmed variant, the carried
value begins with `http://` or `https://`; whenever it returns the
Possible variant, the carried value is the original candidate string
unmodified. -/
theorem claim5_classification_invariant (input : Option String) (v : String) :
    (decodeLnurl input = .yes v →
      startsWithS v "http://" = true ∨ startsWithS v "https://" = true)
  ∧ (decodeLnurl input = .maybe v → input = some v) := by
  cases input with
  | none => exact ⟨fun h => by simp [decodeLnurl] at h, fun h => by simp [decodeLnurl] at h⟩
  | some s =>
    constructor <;> intro h <;> simp only [decodeLnurl] at h
    · by_cases h0 : s = ""
      · rw [if_pos h0] at h
        simp at h
      · rw [if_neg h0] at h
        by_cases h1 : startsWithS (lowerS s) "lightning:" = true
        · rw [if_pos h1] at h
          cases hbd : bech32DecodeOpt (sliceFrom s 10) with
          | none => rw [hbd] at h; simp at h
          | some r =>
            rw [hbd] at h
            have hm : (if isValidLnurl r = true then DecodeResult.yes r
                else DecodeResult.no) = DecodeResult.yes v := h
            by_cases hval : isValidLnurl r = true
            · rw [if_pos hval] at hm
              injection hm with hv
              subst hv
              exact isValidLnurl_starts _ hval
            · rw [if_neg hval] at hm
              simp at hm
        · rw [if_neg h1] at h
          by_cases h2 : startsWithS (lowerS s) "lnurlw://" = true
          · rw [if_pos h2] at h
            injection h with hv
            subst hv
            by_cases hon : isOnion s = true
            · rw [if_pos hon]
              exact Or.inl (startsWithS_append "http://" (sliceFrom s 9))
            · rw [if_neg hon]
              exact Or.inr (startsWithS_append "https://" (sliceFrom s 9))
          · rw [if_neg h2] at h
            by_cases h3 : (startsWithS (lowerS s) "lnurl"
                && idxOfChar ':' (lowerS s).toList = none) = true
            · rw [if_pos h3] at h
              cases hbd : bech32DecodeOpt s with
              | none => rw [hbd] at h; simp at h
              | some r =>
                rw [hbd] at h
                have hm : (if isValidLnurl r = true then DecodeResult.yes r
                    else DecodeResult.no) = DecodeResult.yes v := h
                by_cases hval : isValidLnurl r = true
                · rw [if_pos hval] at hm
                  injection hm with hv
                  subst hv
                  exact isValidLnurl_starts _ hval
                · rw [if_neg hval] at hm
                  simp at hm
            · rw [if_neg h3] at h
              by_cases h4 : startsWithS (lowerS s) "https://" = true
              · rw [if_pos h4] at h
                simp at h
              · rw [if_neg h4] at h
                by_cases h5 : startsWithS (lowerS s) "http://" = true
                · rw [if_pos h5] at h
                  split at h <;> simp at h
                · rw [if_neg h5] at h
                  simp at h
    · by_cases h0 : s = ""
      · rw [if_pos h0] at h
        simp at h
      · rw [if_neg h0] at h
        by_cases h1 : startsWithS (lowerS s) "lightning:" = true
        · rw [if_pos h1] at h
          cases hbd : bech32DecodeOpt (sliceFrom s 10) with
          | none => rw [hbd] at h; simp at h
          | some r =>
            rw [hbd] at h
            have hm : (if isValidLnurl r = true then DecodeResult.yes r
                else DecodeResult.no) = DecodeResult.maybe v := h
            split at hm <;> simp at hm
        · rw [if_neg h1] at h
          by_cases h2 : startsWithS (lowerS s) "lnurlw://" = true
          · rw [if_pos h2] at h
            simp at h
          · rw [if_neg h2] at h
            by_cases h3 : (startsWithS (lowerS s) "lnurl"
                && idxOfChar ':' (lowerS s).toList = none) = true
            · rw [if_pos h3] at h
              cases hbd : bech32DecodeOpt s with
              | none => rw [hbd] at h; simp at h
              | some r =>
                rw [hbd] at h
                have hm : (if isValidLnurl r = true then DecodeResult.yes r
                    else DecodeResult.no) = DecodeResult.maybe v := h
                split at hm <;> simp at hm
            · rw [if_neg h3] at h
              by_cases h4 : startsWithS (lowerS s) "https://" = true
              · rw [if_pos h4] at h
                injection h with hv
                subst hv
                rfl
              · rw [if_neg h4] at h
                by_cases h5 : startsWithS (lowerS s) "http://" = true
                · rw [if_pos h5] at h
                  split at h
                  · injection h with hv
                    subst hv
                    rfl
                  · simp at h
                · rw [if_neg h5] at h
                  simp at h

/-- C5 witness: the theorem applied at the concrete confirmed input
`lnurlw://bitcoin.org` and the concrete possible input
`https://bitcoin.org`. -/
theorem claim5_witness :
    (startsWithS "https://bitcoin.org" "http://" = true
      ∨ startsWithS "https://bitcoin.org" "https://" = true)
  ∧ (some "https://bitcoin.org" : Option String) = some "https://bitcoin.org" :=
  ⟨(claim5_classification_invariant (some "lnurlw://bitcoin.org") "https://bitcoin.org").1
      (by decide),
   (claim5_classification_invariant (some "https://bitcoin.org") "https://bitcoin.org").2
      (by decide)⟩

/-- C7: `decodeLnurl` is total and rejects rather than raises: the absent
and empty inputs classify as Rejected, and on both bech32 paths (the
`lightning:` route and the bare `lnurl` route) any input whose bech32
pipeline fails, or decodes to text the validity gate refuses, classifies
as Rejected. -/
theorem claim7_decode_total :
    decodeLnurl none = .no
  ∧ decodeLnurl (some "") = .no
  ∧ (∀ s : String, startsWithS (lowerS s) "lightning:" = true →
      (∀ r, bech32DecodeOpt (sliceFrom s 10) = some r → isValidLnurl r = false) →
      decodeLnurl (some s) = .no)
  ∧ (∀ s : String, startsWithS (lowerS s) "lnurlw://" = false →
      startsWithS (lowerS s) "lnurl" = true →
      idxOfChar ':' (lowerS s).toList = none →
      (∀ r, bech32DecodeOpt s = some r → isValidLnurl r = false) →
      decodeLnurl (some s) = .no) := by
  refine ⟨rfl, rfl, ?_, ?_⟩
  · intro s h1 h2
    have hs : s ≠ "" := by
      intro h0
      subst h0
      exact absurd h1 (by decide)
    simp only [decodeLnurl]
    rw [if_neg hs, if_pos h1]
    cases hbd : bech32DecodeOpt (sliceFrom s 10) with
    | none => rfl
    | some r => simp [h2 r hbd]
  · intro s h2w h1 hcolon hdec
    have hs : s ≠ "" := by
      intro h0
      subst h0
      exact absurd h1 (by decide)
    have hlight : ¬ startsWithS (lowerS s) "lightning:" = true := by
      intro hl
      have hp : "lightning:".toList <+: (lowerS s).toList :=
        List.isPrefixOf_iff_prefix.mp hl
      obtain ⟨t, ht⟩ := hp
      have hmem : ':' ∈ (lowerS s).toList := by
        rw [← ht]
        exact List.mem_append.mpr (Or.inl (by decide))
      exact (idxOfChar_eq_none_iff ':' (lowerS s).toList).mp hcolon hmem
    have hcolon2 : idxOfChar ':' (lowerS s).data = none := hcolon
    simp only [decodeLnurl]
    rw [if_neg hs, if_neg hlight, if_neg (by simp [h2w]),
      if_pos (show (startsWithS (lowerS s) "lnurl"
        && idxOfChar ':' (lowerS s).toList = none) = true by simp [h1, hcolon, hcolon2])]
    cases hbd : bech32DecodeOpt s with
    | none => rfl
    | some r => simp [hdec r hbd]

set_option maxRecDepth 8000 in
/-- C7 witness: the theorem applied at the concrete garbage bech32 payload
`lnurl1zzzzzzzz` (valid charset, failing checksum). -/
theorem claim7_witness : decodeLnurl (some "lnurl1zzzzzzzz") = DecodeResult.no := by
  have hnone : bech32DecodeOpt "lnurl1zzzzzzzz" = none := by decide
  refine claim7_decode_total.2.2.2 "lnurl1zzzzzzzz" (by decide) (by decide) (by decide)
    (fun r hr => ?_)
  rw [hnone] at hr
  cases hr

set_option maxRecDepth 8000 in
/-- C8: bech32-encoding the UTF-8 bytes of `https://bitcoin.org` under the
`lnurl` scheme yields `lnurl1dp68gurn8ghj7cnfw33k76tw9ehhyeckq6864`, and
`decodeLnurl` maps that identifier back to
`Confirmed "https://bitcoin.org"` in its all-lowercase and all-uppercase
forms, each with or without a leading `lightning:` or `LIGHTNING:`
prefix. -/
theorem claim8_roundtrip :
    lnurlEncode "https://bitcoin.org" = some "lnurl1dp68gurn8ghj7cnfw33k76tw9ehhyeckq6864"
  ∧ upperS "lnurl1dp68gurn8ghj7cnfw33k76tw9ehhyeckq6864"
      = "LNURL1DP68GURN8GHJ7CNFW33K76TW9EHHYECKQ6864"
  ∧ decodeLnurl (some "lnurl1dp68gurn8ghj7cnfw33k76tw9ehhyeckq6864")
      = .yes "https://bitcoin.org"
  ∧ decodeLnurl (some "LNURL1DP68GURN8GHJ7CNFW33K76TW9EHHYECKQ6864")
      = .yes "https://bitcoin.org"
  ∧ decodeLnurl (some "lightning:lnurl1dp68gurn8ghj7cnfw33k76tw9ehhyeckq6864")
      = .yes "https://bitcoin.org"
  ∧ decodeLnurl (some "LIGHTNING:lnurl1dp68gurn8ghj7cnfw33k76tw9ehhyeckq6864")
      = .yes "https://bitcoin.org"
  ∧ decodeLnurl (some "lightning:LNURL1DP68GURN8GHJ7CNFW33K76TW9EHHYECKQ6864")
      = .yes "https://bitcoin.org"
  ∧ decodeLnurl (some "LIGHTNING:LNURL1DP68GURN8GHJ7CNFW33K76TW9EHHYECKQ6864")
      = .yes "https://bitcoin.org" := by
  decide

/-- The Confirmed value a record contributes, when it contributes one. -/
def yesValue (r : RecordM) : Option String :=
  match decodeLnurlRecord r with
  | .yes v => some v
  | _ => none

/-- The Possible value a record contributes, when it contributes one. -/
def maybeValue (r : RecordM) : Option String :=
  match decodeLnurlRecord r with
  | .maybe v => some v
  | _ => none

theorem onReadingLoop_spec (records : List RecordM) (alts : List String) :
    onReadingLoop records alts =
      match records.findSome? yesValue with
      | some v => .lnurlRead v
      | none =>
        match (alts ++ records.filterMap maybeValue).head? with
        | some a => .lnurlRead a
        | none => .error .noLnurlFound := by
  induction records generalizing alts with
  | nil => cases alts <;> simp [onReadingLoop]
  | cons r rest ih =>
    cases r with
    | noData =>
      have hy : yesValue RecordM.noData = none := rfl
      have hm : maybeValue RecordM.noData = none := rfl
      simp [onReadingLoop, List.findSome?_cons, hy, hm, List.filterMap_cons, ih]
    | badText =>
      have hy : yesValue RecordM.badText = none := rfl
      have hm : maybeValue RecordM.badText = none := rfl
      simp [onReadingLoop, List.findSome?_cons, hy, hm, List.filterMap_cons, ih]
    | text s =>
      cases hds : decodeLnurl (some s) with
      | no =>
        have hy : yesValue (RecordM.text s) = none := by
          simp [yesValue, decodeLnurlRecord, hds]
        have hm : maybeValue (RecordM.text s) = none := by
          simp [maybeValue, decodeLnurlRecord, hds]
        simp [onReadingLoop, hds, List.findSome?_cons, hy, hm, List.filterMap_cons, ih]
      | maybe v =>
        have hy : yesValue (RecordM.text s) = none := by
          simp [yesValue, decodeLnurlRecord, hds]
        have hm : maybeValue (RecordM.text s) = some v := by
          simp [maybeValue, decodeLnurlRecord, hds]
        simp [onReadingLoop, hds, List.findSome?_cons, hy, hm, List.filterMap_cons, ih]
      | yes v =>
        have hy : yesValue (RecordM.text s) = some v := by
          simp [yesValue, decodeLnurlRecord, hds]
        simp [onReadingLoop, hds, List.findSome?_cons, hy]

/-- C4: for a well-formed read event the dispatch delivers the value of
the first record classifying Confirmed, else the first record classifying
Possible, else the `noLnurlFound` error; a structurally invalid event
produces the `readingError` error. -/
theorem claim4_dispatch_order :
    (∀ records : List RecordM,
      onReading (some records) =
        match records.findSome? yesValue with
        | some v => ReadDispatch.lnurlRead v
        | none =>
          match records.findSome? maybeValue with
          | some v => ReadDispatch.lnurlRead v
          | none => ReadDispatch.error ErrorReason.noLnurlFound)
  ∧ onReading none = ReadDispatch.error ErrorReason.readingError := by
  refine ⟨fun records => ?_, rfl⟩
  rw [show onReading (some records) = onReadingLoop records [] from rfl,
    onReadingLoop_spec]
  simp [List.filterMap_head?]

theorem occursIn_of_leading (pat l : List Char) (h : pat <+: l) :
    occursIn pat l = true := by
  rw [occursIn_iff]
  obtain ⟨t, ht⟩ := h
  exact ⟨[], t, by simp [← ht]⟩

theorem lightningPat_no_self_overlap :
    ∀ k, k < lightningPat.length → 0 < k →
      lightningPat.drop k ≠ lightningPat.take (lightningPat.length - k) := by decide

theorem lightningPat_not_prefix_of_append (X Y : List Char)
    (hocc : occursIn lightningPat X = false) (hX : X ≠ []) :
    lightningPat.isPrefixOf (X ++ lightningPat ++ Y) = false := by
  cases hp : lightningPat.isPrefixOf (X ++ lightningPat ++ Y)
  · rfl
  · exfalso
    have hpre : lightningPat <+: X ++ lightningPat ++ Y :=
      List.isPrefixOf_iff_prefix.mp hp
    have hXpre0 : X <+: X ++ lightningPat ++ Y := by
      rw [List.append_assoc]
      exact List.prefix_append X _
    rcases le_or_lt lightningPat.length X.length with hlen | hlen
    · have h1 : lightningPat <+: X :=
        List.prefix_of_prefix_length_le hpre hXpre0 hlen
      have h2 := occursIn_of_leading _ _ h1
      rw [hocc] at h2
      exact Bool.noConfusion h2
    · obtain ⟨t, ht⟩ := hpre
      have hd := congrArg (List.drop X.length) ht
      rw [List.drop_append_of_le_length (Nat.le_of_lt hlen)] at hd
      rw [List.append_assoc, List.drop_left] at hd
      have hdpre : lightningPat.drop X.length <+: lightningPat ++ Y := ⟨t, hd⟩
      have hppre : lightningPat <+: lightningPat ++ Y := List.prefix_append _ _
      have hfinal : lightningPat.drop X.length <+: lightningPat :=
        List.prefix_of_prefix_length_le hdpre hppre
          (by rw [List.length_drop]; exact Nat.sub_le _ _)
      have heq : lightningPat.drop X.length
          = lightningPat.take (lightningPat.length - X.length) := by
        have h3 := List.prefix_iff_eq_take.mp hfinal
        rwa [List.length_drop] at h3
      exact lightningPat_no_self_overlap X.length hlen (List.length_pos.mpr hX) heq

theorem replaceFirst_cons_pos (pat : List Char) (c : Char) (rest : List Char)
    (h : pat.isPrefixOf (c :: rest) = true) :
    replaceFirst pat (c :: rest) = (c :: rest).drop pat.length := by
  simp [replaceFirst, h]

theorem replaceFirst_cons_neg (pat : List Char) (c : Char) (rest : List Char)
    (h : pat.isPrefixOf (c :: rest) = false) :
    replaceFirst pat (c :: rest) = c :: replaceFirst pat rest := by
  simp [replaceFirst, h]

theorem replaceFirst_lightning (X Y : List Char)
    (hocc : occursIn lightningPat X = false) :
    replaceFirst lightningPat (X ++ lightningPat ++ Y) = X ++ Y := by
  induction X with
  | nil =>
    have hpre : lightningPat.isPrefixOf (lightningPat ++ Y) = true := by
      rw [ List.isPrefixOf_iff_prefix]
      exact List.prefix_append _ _
    rw [show ([] : List Char) ++ lightningPat ++ Y = lightningPat ++ Y by simp]
    rw [show (lightningPat ++ Y) = 'l' :: ("ightning:".toList ++ Y) from rfl] at hpre ⊢
    rw [replaceFirst_cons_pos _ _ _ hpre]
    rw [show ('l' :: ("ightning:".toList ++ Y)) = lightningPat ++ Y from rfl]
    rw [List.drop_left]
    rfl
  | cons c X2 ih =>
    have hocc1 : (lightningPat.isPrefixOf (c :: X2) || occursIn lightningPat X2)
        = false := hocc
    have hocc2 : occursIn lightningPat X2 = false :=
      (Bool.or_eq_false_iff.mp hocc1).2
    have hstep : (c :: X2) ++ lightningPat ++ Y = c :: (X2 ++ lightningPat ++ Y) := by
      simp
    have hnp : lightningPat.isPrefixOf (c :: (X2 ++ lightningPat ++ Y)) = false := by
      rw [← hstep]
      exact lightningPat_not_prefix_of_append (c :: X2) Y hocc (by simp)
    rw [hstep, replaceFirst_cons_neg _ _ _ hnp, ih hocc2]
    simp

/-- The round-2 URL as the claim words it: only a leading `lightning:`
prefix of the instrument is stripped. Stated from the claim, to be
compared with `paymentRequestUrl` from the source. -/
def claimRound2Url (callback k1 invoice : String) : String :=
  callback ++ (if idxOfChar '?' callback.toList = none then "?" else "&")
    ++ "k1=" ++ k1 ++ "&pr="
    ++ (if lightningPat.isPrefixOf invoice.toList then
          (invoice.toList.drop lightningPat.length).asString
        else invoice)

/-- C3 counterexample: for the instrument `xlightning:y` the code deletes
the non-leading `lightning:` occurrence, so the produced round-2 URL
differs from the one the claim specifies. -/
theorem claim3_counterexample :
    paymentRequestUrl "https://cb" "1234" "xlightning:y"
        = "https://cb?k1=1234&pr=xy"
  ∧ claimRound2Url "https://cb" "1234" "xlightning:y"
        = "https://cb?k1=1234&pr=xlightning:y"
  ∧ paymentRequestUrl "https://cb" "1234" "xlightning:y"
        ≠ claimRound2Url "https://cb" "1234" "xlightning:y" := by
  decide

/-- C10: the round-2 instrument normalization deletes exactly the first
occurrence of the case-sensitive substring `lightning:` anywhere in the
instrument — for an instrument `X ++ "lightning:" ++ Y` with no
`lightning:` inside `X` the `pr` parameter is `X ++ Y` — and an
instrument with an uppercase `LIGHTNING:` prefix passes through
unchanged. -/
theorem claim10_strip_semantics (cb k1 X Y : String)
    (hocc : occursIn lightningPat X.toList = false) :
    paymentRequestUrl cb k1 (X ++ "lightning:" ++ Y)
      = cb ++ (if idxOfChar '?' cb.toList = none then "?" else "&")
        ++ "k1=" ++ k1 ++ "&pr=" ++ (X ++ Y)
  ∧ paymentRequestUrl cb k1 "LIGHTNING:asdf"
      = cb ++ (if idxOfChar '?' cb.toList = none then "?" else "&")
        ++ "k1=" ++ k1 ++ "&pr=" ++ "LIGHTNING:asdf" := by
  constructor
  · have hsplit : (X ++ "lightning:" ++ Y).toList
        = X.toList ++ lightningPat ++ Y.toList := by
      rw [toList_append, toList_append]
      rfl
    have hl : (replaceFirst lightningPat (X ++ "lightning:" ++ Y).toList).asString
        = X ++ Y := by
      rw [hsplit, replaceFirst_lightning X.toList Y.toList hocc, ← toList_append,
        String.asString_toList]
    unfold paymentRequestUrl
    rw [hl]
  · have hl : (replaceFirst lightningPat "LIGHTNING:asdf".toList).asString
        = "LIGHTNING:asdf" := by decide
    unfold paymentRequestUrl
    rw [hl]

/-- C10 witness: the theorem applied at a concrete callback, `k1` and
instrument split. -/
theorem claim10_witness :
    paymentRequestUrl "https://cb" "1" ("x" ++ "lightning:" ++ "y")
      = "https://cb" ++ (if idxOfChar '?' "https://cb".toList = none then "?" else "&")
        ++ "k1=" ++ "1" ++ "&pr=" ++ ("x" ++ "y")
  ∧ paymentRequestUrl "https://cb" "1" "LIGHTNING:asdf"
      = "https://cb" ++ (if idxOfChar '?' "https://cb".toList = none then "?" else "&")
        ++ "k1=" ++ "1" ++ "&pr=" ++ "LIGHTNING:asdf" :=
  claim10_strip_semantics "https://cb" "1" "x" "y" (by decide)

/-- Round 2 always issues exactly one request, for the constructed
payment-submission URL. -/
theorem handlePayment_requests (cb k1 inv : String) (relay : Option String)
    (net : NetRequest → NetResult) :
    (handlePayment cb k1 inv relay net).2
      = [mkRequest relay (paymentRequestUrl cb k1 inv)] := by
  unfold handlePayment
  cases hnet : net (mkRequest relay (paymentRequestUrl cb k1 inv)) with
  | fail m => simp [hnet]
  | ok r =>
    simp only [hnet]
    split_ifs <;> rfl

/-- The network oracle of the concrete round-trip scenario: the endpoint
answers `OK` with callback `https://cb` and `k1=1234`; everything else
answers a bare `OK`. -/
def round2OkNet : NetRequest → NetResult := fun r =>
  if r = NetRequest.direct "https://endpoint" then
    .ok ⟨some (.jstr "OK"), some (.jstr "https://cb"), some (.jstr "1234"), none⟩
  else .ok ⟨some (.jstr "OK"), none, none, none⟩

/-- C3 amended: round 2 issues one request whose target is the callback
with `k1=<k1>` and `pr=<instrument with the first occurrence of the
case-sensitive substring `lightning:` removed>` appended, separated by `&`
iff the callback already contains `?`; in the concrete scenario of the
claim the round-2 target URL is exactly `https://cb?k1=1234&pr=asdf` and
the outcome is success with message `invoice payment initiated`. -/
theorem claim3_amended :
    (∀ (cb k1 inv : String) (relay : Option String) (net : NetRequest → NetResult),
      (handlePayment cb k1 inv relay net).2
        = [mkRequest relay (paymentRequestUrl cb k1 inv)])
  ∧ (∀ cb k1 inv : String, paymentRequestUrl cb k1 inv =
      cb ++ (if '?' ∈ cb.toList then "&" else "?") ++ "k1=" ++ k1 ++ "&pr="
        ++ (replaceFirst lightningPat inv.toList).asString)
  ∧ (handleLNURL "https://endpoint" "asdf" none round2OkNet).1
      = ⟨true, false, some "invoice payment initiated"⟩
  ∧ (handleLNURL "https://endpoint" "asdf" none round2OkNet).2
      = [NetRequest.direct "https://endpoint",
         NetRequest.direct "https://cb?k1=1234&pr=asdf"] := by
  refine ⟨handlePayment_requests, fun cb k1 inv => ?_, by decide, by decide⟩
  unfold paymentRequestUrl
  by_cases hmem : '?' ∈ cb.toList
  · rw [if_neg (fun hn => (idxOfChar_eq_none_iff '?' cb.toList).mp hn hmem),
      if_pos hmem]
  · rw [if_pos ((idxOfChar_eq_none_iff '?' cb.toList).mpr hmem), if_neg hmem]

/-- C9 counterexample: when `startListening` fails inside `listenOnce`,
the promise rejects with that failure but the temporary callbacks are not
restored — the callback field after settlement differs from its value
before the call. -/
theorem claim9_counterexample :
    (listenOnce ⟨CbState.user 1, CbState.user 2, false⟩
        (StartRes.err (RejectVal.reason ErrorReason.unavailable))
        (SessionEvent.readTag "x")).2
      = SettleRes.rejected (RejectVal.reason ErrorReason.unavailable)
  ∧ (listenOnce ⟨CbState.user 1, CbState.user 2, false⟩
        (StartRes.err (RejectVal.reason ErrorReason.unavailable))
        (SessionEvent.readTag "x")).1.onLnurlRead
      = CbState.onceRead
  ∧ CbState.onceRead ≠ CbState.user 1 := by
  decide

/-- C9 amended: the listening flag is always restored (listening before
iff listening after; never listening when it was not before), and the two
callback fields are restored on every settlement except a `startListening`
failure — i.e. whenever the session was already listening or the scan
start succeeded. -/
theorem claim9_amended (st : ReaderSt) (start : StartRes) (ev : SessionEvent) :
    (listenOnce st start ev).1.listening = st.listening
  ∧ (st.listening = true ∨ start = StartRes.ok →
      (listenOnce st start ev).1.onLnurlRead = st.onLnurlRead
      ∧ (listenOnce st start ev).1.onReadingError = st.onReadingError) := by
  rcases st with ⟨a, b, l⟩
  cases l <;> cases start <;> cases ev <;> simp [listenOnce, listenOnceDone]

/-- C9 witness: the amended theorem applied at a concrete non-listening
session whose scan start succeeds. -/
theorem claim9_witness :
    (listenOnce ⟨CbState.user 3, CbState.user 4, false⟩ StartRes.ok
        (SessionEvent.readTag "t")).1.onLnurlRead = CbState.user 3
  ∧ (listenOnce ⟨CbState.user 3, CbState.user 4, false⟩ StartRes.ok
        (SessionEvent.readTag "t")).1.onReadingError = CbState.user 4 :=
  (claim9_amended ⟨CbState.user 3, CbState.user 4, false⟩ StartRes.ok
    (SessionEvent.readTag "t")).2 (Or.inr rfl)

/-- Round 2's outcome discrimination: a remote message comes with a
remote `ERROR` response whose reason it copies; a local message is one of
the static constants or a local failure description. -/
theorem handlePayment_discrimination (cb k1 inv : String) (relay : Option String)
    (net : NetRequest → NetResult) :
    ((handlePayment cb k1 inv relay net).1.isRemoteMessage = true →
      (handlePayment cb k1 inv relay net).1.success = false ∧
      ∃ req ∈ (handlePayment cb k1 inv relay net).2, ∃ resp,
        net req = .ok resp ∧ resp.status = some (JVal.jstr "ERROR") ∧
        (handlePayment cb k1 inv relay net).1.message = resp.reason)
  ∧ ((handlePayment cb k1 inv relay net).1.isRemoteMessage = false →
      (handlePayment cb k1 inv relay net).1.message = some "invalid response"
      ∨ (handlePayment cb k1 inv relay net).1.message = some "invoice payment initiated"
      ∨ ∃ req ∈ (handlePayment cb k1 inv relay net).2, ∃ m,
          net req = .fail m ∧ (handlePayment cb k1 inv relay net).1.message = some m) := by
  cases hnet : net (mkRequest relay (paymentRequestUrl cb k1 inv)) with
  | fail m =>
    constructor
    · intro h
      simp [handlePayment, hnet] at h
    · intro _
      refine Or.inr (Or.inr ⟨mkRequest relay (paymentRequestUrl cb k1 inv), ?_, m, hnet, ?_⟩)
      · simp [handlePayment, hnet]
      · simp [handlePayment, hnet]
  | ok r =>
    by_cases hok : r.status = some (JVal.jstr "OK")
    · constructor
      · intro h
        simp [handlePayment, hnet, hok] at h
      · intro _
        exact Or.inr (Or.inl (by simp [handlePayment, hnet, hok]))
    · by_cases herr : r.status = some (JVal.jstr "ERROR")
      · constructor
        · intro _
          refine ⟨by simp [handlePayment, hnet, hok, herr],
            mkRequest relay (paymentRequestUrl cb k1 inv),
            by simp [handlePayment, hnet, hok, herr], r, hnet, herr,
            by simp [handlePayment, hnet, hok, herr]⟩
        · intro h
          simp [handlePayment, hnet, hok, herr] at h
      · constructor
        · intro h
          simp [handlePayment, hnet, hok, herr] at h
        · intro _
          exact Or.inl (by simp [handlePayment, hnet, hok, herr])

/-- C1: the withdraw operation always reduces to an outcome, and the
outcome's `isRemoteMessage` discriminator is true exactly when the message
was copied from the `reason` field of a response that declared
`status: "ERROR"`; a local outcome's message is the static constant
`invalid response`, the static constant `invoice payment initiated`, or
the description of a local transport or parse failure. -/
theorem claim1_isRemoteMessage (lnurl invoice : String) (relay : Option String)
    (net : NetRequest → NetResult) :
    ((handleLNURL lnurl invoice relay net).1.isRemoteMessage = true →
      (handleLNURL lnurl invoice relay net).1.success = false ∧
      ∃ req ∈ (handleLNURL lnurl invoice relay net).2, ∃ resp,
        net req = .ok resp ∧ resp.status = some (JVal.jstr "ERROR") ∧
        (handleLNURL lnurl invoice relay net).1.message = resp.reason)
  ∧ ((handleLNURL lnurl invoice relay net).1.isRemoteMessage = false →
      (handleLNURL lnurl invoice relay net).1.message = some "invalid response"
      ∨ (handleLNURL lnurl invoice relay net).1.message = some "invoice payment initiated"
      ∨ ∃ req ∈ (handleLNURL lnurl invoice relay net).2, ∃ m,
          net req = .fail m ∧ (handleLNURL lnurl invoice relay net).1.message = some m) := by
  cases hnet : net (mkRequest relay lnurl) with
  | fail m =>
    constructor
    · intro h
      simp [handleLNURL, hnet] at h
    · intro _
      refine Or.inr (Or.inr ⟨mkRequest relay lnurl, ?_, m, hnet, ?_⟩)
      · simp [handleLNURL, hnet]
      · simp [handleLNURL, hnet]
  | ok r =>
    by_cases herr : r.status = some (JVal.jstr "ERROR")
    · constructor
      · intro _
        refine ⟨by simp [handleLNURL, hnet, herr], mkRequest relay lnurl,
          by simp [handleLNURL, hnet, herr], r, hnet, herr,
          by simp [handleLNURL, hnet, herr]⟩
      · intro h
        simp [handleLNURL, hnet, herr] at h
    · obtain ⟨rs, rcb, rk1, rr⟩ := r
      cases rcb with
      | none =>
        refine ⟨fun h => ?_, fun _ => Or.inl ?_⟩
        · simp [handleLNURL, hnet, herr] at h
        · simp [handleLNURL, hnet, herr]
      | some cv =>
        cases cv with
        | jnonstr =>
          refine ⟨fun h => ?_, fun _ => Or.inl ?_⟩
          · simp [handleLNURL, hnet, herr] at h
          · simp [handleLNURL, hnet, herr]
        | jstr cb =>
          cases rk1 with
          | none =>
            refine ⟨fun h => ?_, fun _ => Or.inl ?_⟩
            · simp [handleLNURL, hnet, herr] at h
            · simp [handleLNURL, hnet, herr]
          | some kv =>
            cases kv with
            | jnonstr =>
              refine ⟨fun h => ?_, fun _ => Or.inl ?_⟩
              · simp [handleLNURL, hnet, herr] at h
              · simp [handleLNURL, hnet, herr]
            | jstr k1v =>
              by_cases hne : cb ≠ "" ∧ k1v ≠ ""
              · have heq1 : (handleLNURL lnurl invoice relay net).1
                    = (handlePayment cb k1v invoice relay net).1 := by
                  simp [handleLNURL, hnet, herr, hne]
                have heq2 : (handleLNURL lnurl invoice relay net).2
                    = mkRequest relay lnurl :: (handlePayment cb k1v invoice relay net).2 := by
                  simp [handleLNURL, hnet, herr, hne]
                constructor
                · intro h
                  rw [heq1] at h
                  obtain ⟨hsucc, req, hmem, resp, hresp⟩ :=
                    (handlePayment_discrimination cb k1v invoice relay net).1 h
                  rw [heq1, heq2]
                  exact ⟨hsucc, req, List.mem_cons_of_mem _ hmem, resp, hresp⟩
                · intro h
                  rw [heq1] at h
                  rw [heq1, heq2]
                  rcases (handlePayment_discrimination cb k1v invoice relay net).2 h with
                    h1 | h2 | ⟨req, hmem, m, hm⟩
                  · exact Or.inl h1
                  · exact Or.inr (Or.inl h2)
                  · exact Or.inr (Or.inr ⟨req, List.mem_cons_of_mem _ hmem, m, hm⟩)
              · refine ⟨fun h => ?_, fun _ => Or.inl ?_⟩
                · simp [handleLNURL, hnet, herr, hne] at h
                · simp [handleLNURL, hnet, herr, hne]

/-- A network oracle whose every response declares a remote error. -/
def errNet : NetRequest → NetResult :=
  fun _ => NetResult.ok ⟨some (JVal.jstr "ERROR"), none, none, some "boom"⟩

/-- C1 witness: the theorem applied at a concrete oracle that declares a
remote error in round 1. -/
theorem claim1_witness :
    (handleLNURL "https://e" "inv" none errNet).1.success = false
  ∧ ∃ req ∈ (handleLNURL "https://e" "inv" none errNet).2, ∃ resp,
      errNet req = .ok resp ∧ resp.status = some (JVal.jstr "ERROR") ∧
      (handleLNURL "https://e" "inv" none errNet).1.message = resp.reason :=
  (claim1_isRemoteMessage "https://e" "inv" none errNet).1 (by decide)

/-- The requests of a withdraw attempt: one per round, each built by
`mkRequest` for its round's target, round 1's target being the endpoint
itself. -/
theorem handleLNURL_requests_shape (lnurl invoice : String) (relay : Option String)
    (net : NetRequest → NetResult) :
    ∃ ts : List String, (handleLNURL lnurl invoice relay net).2
      = (lnurl :: ts).map (mkRequest relay) := by
  cases hnet : net (mkRequest relay lnurl) with
  | fail m => exact ⟨[], by simp [handleLNURL, hnet]⟩
  | ok r =>
    by_cases herr : r.status = some (JVal.jstr "ERROR")
    · exact ⟨[], by simp [handleLNURL, hnet, herr]⟩
    · obtain ⟨rs, rcb, rk1, rr⟩ := r
      cases rcb with
      | none => exact ⟨[], by simp [handleLNURL, hnet, herr]⟩
      | some cv =>
        cases cv with
        | jnonstr => exact ⟨[], by simp [handleLNURL, hnet, herr]⟩
        | jstr cb =>
          cases rk1 with
          | none => exact ⟨[], by simp [handleLNURL, hnet, herr]⟩
          | some kv =>
            cases kv with
            | jnonstr => exact ⟨[], by simp [handleLNURL, hnet, herr]⟩
            | jstr k1v =>
              by_cases hne : cb ≠ "" ∧ k1v ≠ ""
              · refine ⟨[paymentRequestUrl cb k1v invoice], ?_⟩
                simp [handleLNURL, hnet, herr, hne, handlePayment_requests]
              · exact ⟨[], by simp [handleLNURL, hnet, herr, hne]⟩

/-- C2: with no relay configured, round 1 is a direct `GET` of the
endpoint and every request of the attempt is a direct `GET`; with a relay
configured, every request of the attempt goes to the relay carrying its
round's target (round 1's being the endpoint), and the endpoint is never
fetched directly. -/
theorem claim2_relay_routing (lnurl invoice : String) (relay : Option String)
    (net : NetRequest → NetResult) :
    (relay = none →
      (handleLNURL lnurl invoice relay net).2.head? = some (NetRequest.direct lnurl)
      ∧ ∀ req ∈ (handleLNURL lnurl invoice relay net).2, ∃ u, req = NetRequest.direct u)
  ∧ (∀ p, relay = some p →
      (handleLNURL lnurl invoice relay net).2.head? = some (NetRequest.relay p lnurl)
      ∧ ∀ req ∈ (handleLNURL lnurl invoice relay net).2, ∃ t, req = NetRequest.relay p t) := by
  obtain ⟨ts, hts⟩ := handleLNURL_requests_shape lnurl invoice relay net
  constructor
  · rintro rfl
    constructor
    · rw [hts]
      rfl
    · intro req hreq
      rw [hts] at hreq
      obtain ⟨t, _, rfl⟩ := List.mem_map.mp hreq
      exact ⟨t, rfl⟩
  · rintro p rfl
    constructor
    · rw [hts]
      rfl
    · intro req hreq
      rw [hts] at hreq
      obtain ⟨t, _, rfl⟩ := List.mem_map.mp hreq
      exact ⟨t, rfl⟩

/-- C2 witness: the theorem applied with and without a concrete relay. -/
theorem claim2_witness :
    (handleLNURL "https://e" "inv" none errNet).2.head?
      = some (NetRequest.direct "https://e")
  ∧ (handleLNURL "https://e" "inv" (some "https://proxy") errNet).2.head?
      = some (NetRequest.relay "https://proxy" "https://e") :=
  ⟨((claim2_relay_routing "https://e" "inv" none errNet).1 rfl).1,
   ((claim2_relay_routing "https://e" "inv" (some "https://proxy") errNet).2
      "https://proxy" rfl).1⟩

end LnurlNfc
